import Mathlib

/-!
Shallow embedding of the midlevel-ir repository: a minimal mid-level IR
builder (modules, functions, blocks as ranges over a flat instruction
stream) and its lowering into an LLVM-style backend.

The embedding follows the Rust source files `src/value.rs`,
`src/instruction.rs`, `src/function.rs`, `src/module.rs` and `src/main.rs`.
Rust `usize` is modelled as `Nat`, `i64` as `Int`, vectors as lists, the
`HashMap<InstId, BasicValueEnum>` as an association list where insertion
prepends (so lookups see the most recent binding, as `HashMap::insert`
overwrites), and panics (`expect`/`unwrap`/`unreachable!`/slice
out-of-bounds) as `Option.none`.  The LLVM backend (the `inkwell` crate) is
external to the repository; it is modelled symbolically: values are a free
datatype of pointers, width-tagged integer constants, load results and add
results, and the builder's emission is a trace of operations.
-/

namespace MIR

/-- The `types.rs` module is not among the given sources, but `main.rs`
matches on `MIRType` exhaustively with the single arm `MIRType::Int32`
(in `to_llvm_type`), which fixes the enum to exactly one variant. -/
inductive MIRType where
  | int32
deriving DecidableEq, Repr

/-- `InstId(pub usize)` from `instruction.rs`. -/
structure InstId where
  val : Nat
deriving DecidableEq, Repr

/-- `BlockId(pub usize)` from `function.rs`. -/
structure BlockId where
  val : Nat
deriving DecidableEq, Repr

/-- `FuncId(pub usize)` from `function.rs`. -/
structure FuncId where
  val : Nat
deriving DecidableEq, Repr

/-- `Value` from `value.rs`.  The `f64` payload of `ConstantFloat` is
modelled opaquely by its bit pattern; no lowering path in the claims
computes with it. -/
inductive Value where
  | instruction (id : InstId)
  | constantInt (lit : Int)
  | constantFloat (bits : Nat)
deriving DecidableEq, Repr

/-- `DefineInst` from `instruction.rs`. -/
structure DefineInst where
  type_ : MIRType
  value : Value
deriving DecidableEq, Repr

/-- `AssignInst` from `instruction.rs`. -/
structure AssignInst where
  dest : Value
  src : Value
deriving DecidableEq, Repr

/-- `AddInst` from `instruction.rs`. -/
structure AddInst where
  dest : Value
  lhs : Value
  rhs : Value
  type_ : MIRType
deriving DecidableEq, Repr

/-- `RetInst` from `instruction.rs`. -/
structure RetInst where
  value : Value
deriving DecidableEq, Repr

/-- `Instruction` from `instruction.rs`. -/
inductive Instruction where
  | define (d : DefineInst)
  | assign (a : AssignInst)
  | add (a : AddInst)
  | ret (r : RetInst)
deriving DecidableEq, Repr

/-- `Block` from `function.rs`: a name and a `Range<InstId>`
(`range.start`, `range.end`); the range's fields are inlined here because
`end` is a Lean keyword. -/
structure Block where
  name : String
  rangeStart : InstId
  rangeEnd : InstId
deriving DecidableEq, Repr

namespace Block

/-- `Block::new`: `range: start..start`. -/
def new (name : String) (start : InstId) : Block :=
  { name := name, rangeStart := start, rangeEnd := start }

/-- `Block::adjust_range`:
`if inst.0 > self.range.end.0 { self.range.end = InstId(inst.0 + 1); }`. -/
def adjust_range (b : Block) (inst : InstId) : Block :=
  if inst.val > b.rangeEnd.val then
    { b with rangeEnd := InstId.mk (inst.val + 1) }
  else
    b

/-- `Block::get_range` as a `(start, end)` pair. -/
def get_range (b : Block) : InstId × InstId :=
  (b.rangeStart, b.rangeEnd)

end Block

/-- `Function` from `function.rs`. -/
structure Function where
  name : String
  ret_type : MIRType
  instructions : List Instruction
  blocks : List Block
  inst_id : Nat
deriving DecidableEq, Repr

namespace Function

/-- `Function::new`. -/
def new (name : String) (ret_type : MIRType) : Function :=
  { name := name, ret_type := ret_type, instructions := [], blocks := [],
    inst_id := 0 }

/-- `Function::add_instruction`: returns the minted `InstId` together with
the updated function (Rust mutates in place). -/
def add_instruction (f : Function) (instruction : Instruction) :
    InstId × Function :=
  (InstId.mk f.inst_id,
   { f with instructions := f.instructions ++ [instruction],
            inst_id := f.inst_id + 1 })

/-- `Function::add_block`. -/
def add_block (f : Function) (block : Block) : BlockId × Function :=
  (BlockId.mk f.blocks.length, { f with blocks := f.blocks ++ [block] })

/-- `Function::last_block`. -/
def last_block (f : Function) : Option BlockId :=
  if f.blocks.isEmpty then none else some (BlockId.mk (f.blocks.length - 1))

/-- `Function::get_block`: `self.blocks.get(id.0)`. -/
def get_block (f : Function) (id : BlockId) : Option Block :=
  f.blocks.get? id.val

/-- `Function::get_block_mut` followed by an in-place update of the block:
out-of-range ids leave the function unchanged (in Rust the caller sees
`None` and cannot mutate). -/
def modify_block (f : Function) (id : BlockId) (g : Block → Block) :
    Function :=
  match f.blocks.get? id.val with
  | none => f
  | some b => { f with blocks := f.blocks.set id.val (g b) }

end Function

/-- `Block::get_instructions`: `&func.instructions[start..end]`.  Rust
slice indexing panics when `start > end` or `end > len`; the panic is
modelled as `none`. -/
def Block.get_instructions (b : Block) (func : Function) :
    Option (List Instruction) :=
  if b.rangeStart.val ≤ b.rangeEnd.val ∧
      b.rangeEnd.val ≤ func.instructions.length then
    some ((func.instructions.drop b.rangeStart.val).take
      (b.rangeEnd.val - b.rangeStart.val))
  else
    none

/-- `Module` from `module.rs`. -/
structure Module where
  name : String
  funcs : List Function
deriving DecidableEq, Repr

namespace Module

/-- `Module::new`. -/
def new (name : String) : Module :=
  { name := name, funcs := [] }

/-- `Module::add_function`. -/
def add_function (m : Module) (function : Function) : FuncId × Module :=
  (FuncId.mk m.funcs.length, { m with funcs := m.funcs ++ [function] })

/-- `Module::get_function`: `self.funcs.get(id.0)`. -/
def get_function (m : Module) (id : FuncId) : Option Function :=
  m.funcs.get? id.val

end Module

/-!
Lowering model, from `main.rs`.  The LLVM backend is symbolic: an
`alloca` hands out consecutive slot numbers, and every builder call is
recorded in an emission trace.
-/

/-- Symbolic model of inkwell's `BasicValueEnum` as produced by the
builder calls that `main.rs` makes: alloca handles, `const_int` values
tagged with the width of the integer type they were built from,
`const_float` values, `build_load` results and `build_int_add` results. -/
inductive BasicValueEnum where
  | pointer (slot : Nat)
  | intConst (width : Nat) (value : Nat)
  | floatConst (bits : Nat)
  | loadVal (width : Nat) (slot : Nat)
  | addVal (lhs rhs : BasicValueEnum)
deriving DecidableEq, Repr

/-- One backend builder call, as emitted by the lowering engine. -/
inductive LLVMOp where
  | declareFunction (name : String) (retWidth : Nat)
  | openBlock (name : String)
  | alloca (width : Nat) (slot : Nat)
  | store (slot : Nat) (value : BasicValueEnum)
  | load (width : Nat) (slot : Nat)
  | intAdd (lhs rhs : BasicValueEnum)
  | ret (value : BasicValueEnum)
deriving DecidableEq, Repr

/-- The `Codegen` struct of `main.rs`: the `namend` `HashMap` is an
association list whose insertions prepend (lookup sees the newest
binding, matching `HashMap::insert` overwriting), `nextSlot` numbers the
allocas the backend hands out, and `ops` is the emission trace standing
for the mutable LLVM module/builder. -/
structure Codegen where
  namend : List (InstId × BasicValueEnum)
  nextSlot : Nat
  ops : List LLVMOp
deriving DecidableEq, Repr

/-- The state of the `Codegen` built in `main`: empty map, no emissions. -/
def Codegen.initial : Codegen :=
  { namend := [], nextSlot := 0, ops := [] }

/-- `HashMap::get` on the association-list model of `namend`. -/
def namendGet (m : List (InstId × BasicValueEnum)) (id : InstId) :
    Option BasicValueEnum :=
  match m with
  | [] => none
  | (k, v) :: rest => if k = id then some v else namendGet rest id

/-- `to_llvm_type`, reduced to the width of the produced integer type:
`MIRType::Int32 => i32_type()`. -/
def to_llvm_type (ty : MIRType) : Nat :=
  match ty with
  | .int32 => 32

/-- Rust's `lit as u64` reinterpretation of an `i64`. -/
def toU64 (lit : Int) : Nat :=
  (lit % (2 : Int) ^ 64).toNat

/-- `to_llvm_value`: an instruction reference is looked up in `namend`
(`expect` panics on a miss, modelled `none`); a `ConstantInt` is
materialized as `i64_type().const_int(lit as u64, false)` — width 64
regardless of any declared type; a `ConstantFloat` as an `f64` constant. -/
def to_llvm_value (value : Value) (codegen : Codegen) :
    Option BasicValueEnum :=
  match value with
  | .instruction inst_id => namendGet codegen.namend inst_id
  | .constantInt literal => some (.intConst 64 (toU64 literal))
  | .constantFloat bits => some (.floatConst bits)

/-- inkwell's `into_pointer_value`, which panics (`none`) on anything
that is not a pointer. -/
def BasicValueEnum.into_pointer_value : BasicValueEnum → Option Nat
  | .pointer slot => some slot
  | _ => none

/-- The `lhs_val`/`rhs_val` match of the `Instruction::Add` arm of
`compile_block`: an instruction reference is `unwrap`ped from `namend`,
cast to a pointer and loaded at `to_llvm_type(add_inst.get_type())`; a
constant is `i32_type().const_int(lit as u64, false)` (width 32, the
`u64` masked to it); a float operand hits `unreachable!`.  Returns the
operand value together with the ops this emits. -/
def addOperand (v : Value) (ty : MIRType) (cg : Codegen) :
    Option (BasicValueEnum × List LLVMOp) :=
  match v with
  | .instruction id =>
    match namendGet cg.namend id with
    | none => none
    | some w =>
      match w.into_pointer_value with
      | none => none
      | some ptr =>
        some (.loadVal (to_llvm_type ty) ptr, [.load (to_llvm_type ty) ptr])
  | .constantInt lit => some (.intConst 32 (toU64 lit % 2 ^ 32), [])
  | .constantFloat _ => none

/-- One iteration of the instruction loop of `compile_block`, for the
instruction with identifier `inst_id`. -/
def compileInst (inst_id : InstId) (inst : Instruction) (cg : Codegen) :
    Option Codegen :=
  match inst with
  | .define define_inst =>
    let llvm_type := to_llvm_type define_inst.type_
    let slot := cg.nextSlot
    let cg1 : Codegen :=
      { cg with nextSlot := slot + 1, ops := cg.ops ++ [.alloca llvm_type slot] }
    match to_llvm_value define_inst.value cg1 with
    | none => none
    | some value =>
      some { cg1 with
        ops := cg1.ops ++ [.store slot value],
        namend := (inst_id, .pointer slot) :: cg1.namend }
  | .assign assign_inst =>
    match to_llvm_value assign_inst.dest cg with
    | none => none
    | some dest =>
      match to_llvm_value assign_inst.src cg with
      | none => none
      | some src =>
        match dest.into_pointer_value with
        | none => none
        | some slot => some { cg with ops := cg.ops ++ [.store slot src] }
  | .add add_inst =>
    match add_inst.dest with
    | .instruction dest_id =>
      match namendGet cg.namend dest_id with
      | none => none
      | some dv =>
        match dv.into_pointer_value with
        | none => none
        | some dest_ptr =>
          match addOperand add_inst.lhs add_inst.type_ cg with
          | none => none
          | some (lhs_val, lhs_ops) =>
            match addOperand add_inst.rhs add_inst.type_ cg with
            | none => none
            | some (rhs_val, rhs_ops) =>
              let sum := BasicValueEnum.addVal lhs_val rhs_val
              some { cg with
                ops := cg.ops ++ lhs_ops ++ rhs_ops ++
                  [.intAdd lhs_val rhs_val, .store dest_ptr sum],
                namend := (inst_id, sum) :: cg.namend }
    | _ => none
  | .ret ret_inst =>
    match to_llvm_value ret_inst.value cg with
    | none => none
    | some ret_value => some { cg with ops := cg.ops ++ [.ret ret_value] }

/-- The instruction loop of `compile_block`: the `i`-th instruction of
the slice gets identifier `range.start + i`, and the loop runs over the
whole slice unconditionally. -/
def compileInsts (startId : Nat) (instrs : List Instruction) (cg : Codegen) :
    Option Codegen :=
  match instrs with
  | [] => some cg
  | inst :: rest =>
    match compileInst (InstId.mk startId) inst cg with
    | none => none
    | some cg2 => compileInsts (startId + 1) rest cg2

/-- `compile_block`. -/
def compile_block (block : Block) (func : Function) (cg : Codegen) :
    Option Codegen :=
  match block.get_instructions func with
  | none => none
  | some instructions => compileInsts block.rangeStart.val instructions cg

/-- The block loop of `compile_function`: append/position a native basic
block labeled with the block's name, then compile it. -/
def compileBlocks (blocks : List Block) (func : Function) (cg : Codegen) :
    Option Codegen :=
  match blocks with
  | [] => some cg
  | block :: rest =>
    let cg1 : Codegen := { cg with ops := cg.ops ++ [.openBlock block.name] }
    match compile_block block func cg1 with
    | none => none
    | some cg2 => compileBlocks rest func cg2

/-- `compile_function`: declare the function at its declared return type,
then lower its blocks in creation order.  Note that `namend` is carried
in, not reset. -/
def compile_function (func : Function) (cg : Codegen) : Option Codegen :=
  let ret_type := to_llvm_type func.ret_type
  compileBlocks func.blocks func
    { cg with ops := cg.ops ++ [.declareFunction func.name ret_type] }

/-- The function loop of `compile`. -/
def compileFuncs (funcs : List Function) (cg : Codegen) : Option Codegen :=
  match funcs with
  | [] => some cg
  | f :: rest =>
    match compile_function f cg with
    | none => none
    | some cg2 => compileFuncs rest cg2

/-- `compile`: lower every function of the module, threading the single
`Codegen` state through. -/
def compile (m : Module) (cg : Codegen) : Option Codegen :=
  compileFuncs m.funcs cg

/-- The operands of the `build_return` calls in an emission trace, in
emission order. -/
def retOps (ops : List LLVMOp) : List BasicValueEnum :=
  ops.filterMap fun op =>
    match op with
    | .ret v => some v
    | _ => none

/-- Whether a backend value is the integer constant `c` (at any width). -/
def BasicValueEnum.isIntConstVal (v : BasicValueEnum) (c : Nat) : Bool :=
  match v with
  | .intConst _ value => value = c
  | _ => false

/-!
Builder operations.  `main.rs` mutates a `Function` through exactly three
calls: `add_instruction`, `add_block`, and `get_block_mut` followed by
`adjust_range` on the returned block.  To quantify over arbitrary
interleavings of these calls we reify them as an operation type.
-/

/-- One mutating builder call on a `Function`. -/
inductive BuilderOp where
  | addInst (i : Instruction)
  | addBlock (b : Block)
  | adjustRange (id : BlockId) (k : InstId)

/-- Apply a builder call to a function. -/
def applyOp (f : Function) (op : BuilderOp) : Function :=
  match op with
  | .addInst i => (f.add_instruction i).2
  | .addBlock b => (f.add_block b).2
  | .adjustRange id k => f.modify_block id (fun b => b.adjust_range k)

/-- The number of `add_instruction` calls in a builder-call sequence. -/
def countAppends : List BuilderOp → Nat
  | [] => 0
  | .addInst _ :: rest => countAppends rest + 1
  | .addBlock _ :: rest => countAppends rest
  | .adjustRange _ _ :: rest => countAppends rest

/-!
Concrete MIR programs used to settle the claims, each assembled through
the builder calls exactly as `main.rs` assembles its example program.
-/

/-- `Define a = 69; Ret a` — the round-trip program of the spec's
testable properties, built with the builder calls of `main.rs`. -/
def roundtripFunc : Function :=
  let f0 := Function.new "main" .int32
  let (bid, f1) := f0.add_block (Block.new "entry" (InstId.mk 0))
  let (i0, f2) := f1.add_instruction (.define ⟨.int32, .constantInt 69⟩)
  let f3 := f2.modify_block bid (fun b => b.adjust_range i0)
  let (i1, f4) := f3.add_instruction (.ret ⟨.instruction i0⟩)
  f4.modify_block bid (fun b => b.adjust_range i1)

/-- A module holding only `roundtripFunc`. -/
def roundtripMod : Module :=
  ((Module.new "main").add_function roundtripFunc).2

/-- First function of the two-function module: `Define a = 69; Ret a`. -/
def staleDefFunc : Function :=
  let f0 := Function.new "f0" .int32
  let (bid, f1) := f0.add_block (Block.new "entry" (InstId.mk 0))
  let (i0, f2) := f1.add_instruction (.define ⟨.int32, .constantInt 69⟩)
  let f3 := f2.modify_block bid (fun b => b.adjust_range i0)
  let (i1, f4) := f3.add_instruction (.ret ⟨.instruction i0⟩)
  f4.modify_block bid (fun b => b.adjust_range i1)

/-- Second function of the two-function module: its first instruction,
`Assign(dest = InstructionRef(0), src = 5)`, references identifier `0`,
which is never defined earlier in this function (it is the `Assign`'s own
identifier); identifier `0` was only defined in `staleDefFunc`. -/
def staleUseFunc : Function :=
  let f0 := Function.new "f1" .int32
  let (bid, f1) := f0.add_block (Block.new "entry" (InstId.mk 0))
  let (i0, f2) := f1.add_instruction
    (.assign ⟨.instruction (InstId.mk 0), .constantInt 5⟩)
  let f3 := f2.modify_block bid (fun b => b.adjust_range i0)
  let (i1, f4) := f3.add_instruction (.ret ⟨.constantInt 7⟩)
  f4.modify_block bid (fun b => b.adjust_range i1)

/-- A module with `staleDefFunc` followed by `staleUseFunc`. -/
def staleModule : Module :=
  (((Module.new "m").add_function staleDefFunc).2.add_function staleUseFunc).2

/-- A function whose block holds a `Return` followed by a further
instruction: `Ret 1; Define b = 2`, block range `[0, 2)`. -/
def retThenDefineFunc : Function :=
  let f0 := Function.new "g" .int32
  let (bid, f1) := f0.add_block (Block.new "entry" (InstId.mk 0))
  let (i0, f2) := f1.add_instruction (.ret ⟨.constantInt 1⟩)
  let f3 := f2.modify_block bid (fun b => b.adjust_range i0)
  let (i1, f4) := f3.add_instruction (.define ⟨.int32, .constantInt 2⟩)
  f4.modify_block bid (fun b => b.adjust_range i1)

/-- The codegen state after lowering `Ret 1; Define b = 2` from the
initial state. -/
def retDefineLowered : Codegen :=
  { namend := [(InstId.mk 1, .pointer 0)],
    nextSlot := 1,
    ops := [.ret (.intConst 64 1), .alloca 32 0,
            .store 0 (.intConst 64 2)] }

/-- A codegen state with two storage slots recorded, for instructions `0`
and `1`, as left after lowering two `Define`s. -/
def addWitnessCg : Codegen :=
  { namend := [(InstId.mk 0, .pointer 0), (InstId.mk 1, .pointer 1)],
    nextSlot := 2,
    ops := [] }

/-!
Theorems.
-/

/-- Claim C1: the claim states that extending an empty block anchored at
`s` with identifier `k = s` must grow the range's end to `s + 1` (end is
set to `k + 1` iff `k + 1` exceeds the current end).  The code's guard in
`Block::adjust_range` is `inst.0 > self.range.end.0` rather than
`inst.0 + 1 > self.range.end.0`, so at the anchor the call is a no-op:
the end stays `0` instead of becoming `1`.  This theorem evaluates the
code at that failing input. -/
theorem adjust_range_at_anchor_is_noop :
    ((Block.new "entry" (InstId.mk 0)).adjust_range (InstId.mk 0)).rangeEnd
        = InstId.mk 0 ∧
    ((Block.new "entry" (InstId.mk 0)).adjust_range (InstId.mk 0)).rangeEnd
        ≠ InstId.mk 1 := by
  decide

/-- Claim C2: the claim states the identifier-to-value map is
per-function, so a reference to an identifier defined only in a
previously lowered function must raise the fatal invariant error.  The
code's `namend` map lives in the shared `Codegen` struct and is never
cleared between functions, so lowering `staleModule` — whose second
function's `Assign` references identifier `0`, defined only in the first
function — succeeds silently: the second function's trace stores through
the first function's slot `0` (the `store 0 (intConst 64 5)` emitted
after `declareFunction "f1"`), with no error. -/
theorem stale_namend_resolves_across_functions :
    compile staleModule Codegen.initial =
      some { namend := [(InstId.mk 0, BasicValueEnum.pointer 0)],
             nextSlot := 1,
             ops := [.declareFunction "f0" 32, .openBlock "entry",
                     .alloca 32 0, .store 0 (.intConst 64 69),
                     .ret (.pointer 0),
                     .declareFunction "f1" 32, .openBlock "entry",
                     .store 0 (.intConst 64 5),
                     .ret (.intConst 64 7)] } := by
  decide

/-- Claim C3, counterexample: lowering `Define a = 69; Ret a` produces a
single return whose operand is not the integer constant `69` at any
width — the claim that the backend return value equals the defined
constant fails at this input. -/
theorem roundtrip_ret_not_the_constant :
    (compile roundtripMod Codegen.initial).map
        (fun cg => (retOps cg.ops).map (fun v => v.isIntConstVal 69))
      = some [false] := by
  decide

/-- Claim C3, amended: lowering `Define a = 69; Ret a` produces a
function whose single return operand is the `Define`'s storage-slot
handle (the alloca pointer recorded in the map for identifier `0`), not
the constant `69`: `to_llvm_value` resolves an instruction reference to
whatever the map holds, and for a `Define` that is the slot pointer,
never a loaded value. -/
theorem roundtrip_returns_slot_pointer :
    (compile roundtripMod Codegen.initial).map (fun cg => retOps cg.ops)
      = some [BasicValueEnum.pointer 0] := by
  decide

/-- Claim C5, counterexample: lowering the block `Ret 1; Define b = 2`
(range `[0, 2)`) emits the alloca and store of the `Define` after the
return terminator — the instruction following the lowered `Return` is
still processed, contradicting the claim that no further instructions of
the block's range are processed after a return. -/
theorem ret_then_define_still_processed :
    compile_function retThenDefineFunc Codegen.initial =
      some { namend := [(InstId.mk 1, BasicValueEnum.pointer 0)],
             nextSlot := 1,
             ops := [.declareFunction "g" 32, .openBlock "entry",
                     .ret (.intConst 64 1), .alloca 32 0,
                     .store 0 (.intConst 64 2)] } := by
  decide

/-- Claim C7: the claim states every `ConstantInt` operand is
materialized at the governing instruction's declared width (32 bits for
`Int32`) in every instruction variant.  `to_llvm_value` — the resolver
used by the `Define`, `Assign` and `Return` arms — materializes
`ConstantInt` via `i64_type().const_int(..)`, width 64 regardless of the
declared type: lowering `Define(Int32, ConstantInt 69)` allocates a
32-bit slot but stores a 64-bit constant into it. -/
theorem define_stores_64bit_constant_into_32bit_slot :
    compileInst (InstId.mk 0)
        (Instruction.define ⟨MIRType.int32, Value.constantInt 69⟩)
        Codegen.initial =
      some { namend := [(InstId.mk 0, BasicValueEnum.pointer 0)],
             nextSlot := 1,
             ops := [.alloca 32 0, .store 0 (.intConst 64 69)] } := by
  decide

/-- Claim C8: `Block::adjust_range` with an identifier `k` whose
successor `k + 1` is at most the current range end leaves the block —
both endpoints of its range — unchanged: the guard `k > end` fails, so
repeated or out-of-order calls with covered identifiers are no-ops. -/
theorem adjust_range_idempotent_on_covered (b : Block) (k : InstId)
    (h : k.val + 1 ≤ b.rangeEnd.val) :
    b.adjust_range k = b := by
  have hk : ¬ k.val > b.rangeEnd.val := by omega
  simp [Block.adjust_range, hk]

/-- Witness for `adjust_range_idempotent_on_covered` at a block with
range `[0, 2)` and identifier `1`. -/
theorem adjust_range_idempotent_on_covered_witness :
    (InstId.mk 1).val + 1 ≤ (Block.mk "b" (InstId.mk 0) (InstId.mk 2)).rangeEnd.val ∧
    (Block.mk "b" (InstId.mk 0) (InstId.mk 2)).adjust_range (InstId.mk 1)
      = Block.mk "b" (InstId.mk 0) (InstId.mk 2) :=
  ⟨by decide,
   adjust_range_idempotent_on_covered (Block.mk "b" (InstId.mk 0) (InstId.mk 2))
     (InstId.mk 1) (by decide)⟩

/-- `modify_block` (the `get_block_mut` + in-place mutation pattern)
touches only the block list. -/
theorem modify_block_preserves (f : Function) (id : BlockId)
    (g : Block → Block) :
    (f.modify_block id g).inst_id = f.inst_id ∧
    (f.modify_block id g).instructions = f.instructions := by
  unfold Function.modify_block
  cases f.blocks.get? id.val <;> simp

/-- Folding any sequence of builder calls over a function raises
`inst_id` and the instruction count by exactly the number of
`add_instruction` calls in the sequence. -/
theorem foldl_applyOp_counts (ops : List BuilderOp) (f : Function) :
    (ops.foldl applyOp f).inst_id = f.inst_id + countAppends ops ∧
    (ops.foldl applyOp f).instructions.length
      = f.instructions.length + countAppends ops := by
  induction ops generalizing f with
  | nil => simp [countAppends]
  | cons op rest ih =>
    cases op with
    | addInst i =>
      simp only [List.foldl_cons, applyOp, countAppends]
      rw [(ih (f.add_instruction i).2).1, (ih (f.add_instruction i).2).2]
      simp only [Function.add_instruction, List.length_append,
        List.length_cons, List.length_nil]
      omega
    | addBlock b =>
      simp only [List.foldl_cons, applyOp, countAppends]
      rw [(ih (f.add_block b).2).1, (ih (f.add_block b).2).2]
      simp [Function.add_block]
    | adjustRange id k =>
      have hp := modify_block_preserves f id (fun b => b.adjust_range k)
      simp only [List.foldl_cons, applyOp, countAppends]
      rw [(ih (f.modify_block id (fun b => b.adjust_range k))).1,
        (ih (f.modify_block id (fun b => b.adjust_range k))).2,
        hp.1, hp.2]
      exact ⟨rfl, rfl⟩

/-- Claim C6: starting from `Function::new` and applying any interleaving
of builder calls, the next `add_instruction` returns the identifier equal
to the number of instructions already appended; over the function's
lifetime `inst_id` equals the count of appends and the instruction count,
so successive appends return `0, 1, ..., N-1`, each identifier unique,
strictly increasing and never reused. -/
theorem append_returns_prior_count (name : String) (ty : MIRType)
    (ops : List BuilderOp) (i : Instruction) :
    ((ops.foldl applyOp (Function.new name ty)).add_instruction i).1
        = InstId.mk (countAppends ops) ∧
    (ops.foldl applyOp (Function.new name ty)).inst_id = countAppends ops ∧
    (ops.foldl applyOp (Function.new name ty)).instructions.length
        = countAppends ops := by
  have h := foldl_applyOp_counts ops (Function.new name ty)
  have h0 : (Function.new name ty).inst_id = 0 := rfl
  have hlen : (Function.new name ty).instructions.length = 0 := rfl
  have h1 := h.1
  rw [h0, Nat.zero_add] at h1
  have h2 := h.2
  rw [hlen, Nat.zero_add] at h2
  refine ⟨?_, h1, h2⟩
  show InstId.mk (ops.foldl applyOp (Function.new name ty)).inst_id
      = InstId.mk (countAppends ops)
  rw [h1]

/-- Claim C9: `Module::get_function` and `Function::get_block` are total
lookups: the handle returned by `add_function`/`add_block` resolves to
the element just added, an in-range index resolves to exactly the
element at that position, an out-of-range index yields `None` (never a
panic), and a previously valid handle still resolves to the same element
after a later addition. -/
theorem handle_lookup_total_stable (m : Module) (f g : Function)
    (fn : Function) (b c : Block) (i : Nat) :
    ((m.add_function f).2.get_function (m.add_function f).1 = some f) ∧
    (m.get_function (FuncId.mk i) = some g →
      (m.add_function f).2.get_function (FuncId.mk i) = some g) ∧
    (∀ hi : i < m.funcs.length,
      m.get_function (FuncId.mk i) = some (m.funcs.get ⟨i, hi⟩)) ∧
    (m.funcs.length ≤ i → m.get_function (FuncId.mk i) = none) ∧
    ((fn.add_block b).2.get_block (fn.add_block b).1 = some b) ∧
    (fn.get_block (BlockId.mk i) = some c →
      (fn.add_block b).2.get_block (BlockId.mk i) = some c) ∧
    (∀ hi : i < fn.blocks.length,
      fn.get_block (BlockId.mk i) = some (fn.blocks.get ⟨i, hi⟩)) ∧
    (fn.blocks.length ≤ i → fn.get_block (BlockId.mk i) = none) := by
  refine ⟨?_, ?_, ?_, ?_, ?_, ?_, ?_, ?_⟩
  · show (m.funcs ++ [f]).get? m.funcs.length = some f
    exact List.get?_concat_length m.funcs f
  · intro h
    obtain ⟨hlt, -⟩ := List.get?_eq_some.mp h
    show (m.funcs ++ [f]).get? i = some g
    rw [List.get?_append hlt]
    exact h
  · intro hi
    exact List.get?_eq_get hi
  · intro h
    exact List.get?_eq_none.mpr h
  · show (fn.blocks ++ [b]).get? fn.blocks.length = some b
    exact List.get?_concat_length fn.blocks b
  · intro h
    obtain ⟨hlt, -⟩ := List.get?_eq_some.mp h
    show (fn.blocks ++ [b]).get? i = some c
    rw [List.get?_append hlt]
    exact h
  · intro hi
    exact List.get?_eq_get hi
  · intro h
    exact List.get?_eq_none.mpr h

/-- Witness for `handle_lookup_total_stable`: the handle minted by
adding a function to the empty module resolves to that function, and
looking index `0` up in the empty module yields `None`. -/
theorem handle_lookup_total_stable_witness :
    (((Module.new "m").add_function (Function.new "f" MIRType.int32)).2.get_function
        ((Module.new "m").add_function (Function.new "f" MIRType.int32)).1
      = some (Function.new "f" MIRType.int32)) ∧
    ((Module.new "m").get_function (FuncId.mk 0) = none) := by
  have h := handle_lookup_total_stable (Module.new "m")
    (Function.new "f" MIRType.int32) (Function.new "f" MIRType.int32)
    (Function.new "u" MIRType.int32) (Block.new "e" (InstId.mk 0))
    (Block.new "e" (InstId.mk 0)) 0
  exact ⟨h.1, h.2.2.2.1 (by decide)⟩

/-- Claim C10: when `start ≤ end` and `end` is at most the stream
length, `Block::get_instructions` succeeds and returns exactly the
`end - start` instructions of the stream at positions `[start, end)`;
when the range end exceeds the stream length the slice indexing fails;
and `adjust_range` performs no bounds check, so actually extending a
block (the guard fires) with the identifier of an instruction never
appended to `f` leaves a block on which `get_instructions f` fails. -/
theorem get_instructions_total_on_valid_range (b : Block) (f : Function)
    (h1 : b.rangeStart.val ≤ b.rangeEnd.val)
    (h2 : b.rangeEnd.val ≤ f.instructions.length) :
    (∃ l, b.get_instructions f = some l ∧
      l.length = b.rangeEnd.val - b.rangeStart.val ∧
      ∀ j < l.length, l.get? j = f.instructions.get? (b.rangeStart.val + j)) ∧
    (∀ g : Function, g.instructions.length < b.rangeEnd.val →
      b.get_instructions g = none) ∧
    (∀ k : InstId, f.instructions.length ≤ k.val → b.rangeEnd.val < k.val →
      (b.adjust_range k).get_instructions f = none) := by
  refine ⟨?_, ?_, ?_⟩
  · refine ⟨(f.instructions.drop b.rangeStart.val).take
      (b.rangeEnd.val - b.rangeStart.val), ?_, ?_, ?_⟩
    · simp [Block.get_instructions, h1, h2]
    · simp [List.length_take, List.length_drop]
      omega
    · intro j hj
      have hj' : j < b.rangeEnd.val - b.rangeStart.val := by
        simp [List.length_take, List.length_drop] at hj
        omega
      rw [List.get?_take hj', List.get?_drop]
  · intro g hg
    have hne : ¬ (b.rangeStart.val ≤ b.rangeEnd.val ∧
        b.rangeEnd.val ≤ g.instructions.length) := by omega
    simp only [Block.get_instructions, if_neg hne]
  · intro k hk1 hk2
    have hfire : k.val > b.rangeEnd.val := hk2
    have hne : ¬ (b.rangeStart.val ≤ k.val + 1 ∧
        k.val + 1 ≤ f.instructions.length) := by omega
    simp only [Block.adjust_range, if_pos hfire, Block.get_instructions]
    exact if_neg hne

/-- Witness for `get_instructions_total_on_valid_range`: reading the
range `[0, 1)` of the two-instruction `roundtripFunc` succeeds. -/
theorem get_instructions_total_witness :
    (Block.mk "b" (InstId.mk 0) (InstId.mk 1)).get_instructions roundtripFunc
      ≠ none := by
  obtain ⟨⟨l, hl, -, -⟩, -, -⟩ := get_instructions_total_on_valid_range
    (Block.mk "b" (InstId.mk 0) (InstId.mk 1)) roundtripFunc
    (by decide) (by decide)
  simp [hl]

/-- Claim C4: lowering an `Add` whose destination resolves in the map to
a storage handle and whose operands resolve emits the operand loads, the
native integer add and the store of the sum into the destination's slot,
and records the `Add`'s own identifier as mapping to the computed sum
value itself (not a storage handle), so that `to_llvm_value` resolves a
later reference to that identifier to the sum directly, emitting no
load; each instruction-reference operand is loaded from its storage
handle at the instruction's declared type, and each constant operand is
materialized directly with no emitted op. -/
theorem add_lowering_records_sum (cg : Codegen) (k : Nat) (a : AddInst)
    (d : InstId) (ds : Nat) (l r : BasicValueEnum) (lops rops : List LLVMOp)
    (hdest : a.dest = Value.instruction d)
    (hds : namendGet cg.namend d = some (BasicValueEnum.pointer ds))
    (hl : addOperand a.lhs a.type_ cg = some (l, lops))
    (hr : addOperand a.rhs a.type_ cg = some (r, rops)) :
    compileInst (InstId.mk k) (Instruction.add a) cg =
      some { cg with
        ops := cg.ops ++ lops ++ rops ++
          [LLVMOp.intAdd l r, LLVMOp.store ds (BasicValueEnum.addVal l r)],
        namend := (InstId.mk k, BasicValueEnum.addVal l r) :: cg.namend } ∧
    to_llvm_value (Value.instruction (InstId.mk k))
        { cg with
          ops := cg.ops ++ lops ++ rops ++
            [LLVMOp.intAdd l r, LLVMOp.store ds (BasicValueEnum.addVal l r)],
          namend := (InstId.mk k, BasicValueEnum.addVal l r) :: cg.namend }
      = some (BasicValueEnum.addVal l r) ∧
    (∀ li, a.lhs = Value.instruction li → ∃ ls,
      namendGet cg.namend li = some (BasicValueEnum.pointer ls) ∧
      l = BasicValueEnum.loadVal (to_llvm_type a.type_) ls ∧
      lops = [LLVMOp.load (to_llvm_type a.type_) ls]) ∧
    (∀ lv, a.lhs = Value.constantInt lv →
      l = BasicValueEnum.intConst 32 (toU64 lv % 2 ^ 32) ∧ lops = []) ∧
    (∀ ri, a.rhs = Value.instruction ri → ∃ rs,
      namendGet cg.namend ri = some (BasicValueEnum.pointer rs) ∧
      r = BasicValueEnum.loadVal (to_llvm_type a.type_) rs ∧
      rops = [LLVMOp.load (to_llvm_type a.type_) rs]) ∧
    (∀ rv, a.rhs = Value.constantInt rv →
      r = BasicValueEnum.intConst 32 (toU64 rv % 2 ^ 32) ∧ rops = []) := by
  refine ⟨?_, ?_, ?_, ?_, ?_, ?_⟩
  · simp only [compileInst, hdest, hds, BasicValueEnum.into_pointer_value,
      hl, hr]
  · simp [to_llvm_value, namendGet]
  · intro li hli
    rw [hli] at hl
    simp only [addOperand] at hl
    cases hg : namendGet cg.namend li with
    | none => rw [hg] at hl; cases hl
    | some w =>
      rw [hg] at hl
      cases w with
      | pointer ls =>
        simp only [BasicValueEnum.into_pointer_value, Option.some.injEq,
          Prod.mk.injEq] at hl
        exact ⟨ls, rfl, hl.1.symm, hl.2.symm⟩
      | intConst w v => simp [BasicValueEnum.into_pointer_value] at hl
      | floatConst bb => simp [BasicValueEnum.into_pointer_value] at hl
      | loadVal w s => simp [BasicValueEnum.into_pointer_value] at hl
      | addVal x y => simp [BasicValueEnum.into_pointer_value] at hl
  · intro lv hlv
    rw [hlv] at hl
    simp only [addOperand, Option.some.injEq, Prod.mk.injEq] at hl
    exact ⟨hl.1.symm, hl.2.symm⟩
  · intro ri hri
    rw [hri] at hr
    simp only [addOperand] at hr
    cases hg : namendGet cg.namend ri with
    | none => rw [hg] at hr; cases hr
    | some w =>
      rw [hg] at hr
      cases w with
      | pointer rs =>
        simp only [BasicValueEnum.into_pointer_value, Option.some.injEq,
          Prod.mk.injEq] at hr
        exact ⟨rs, rfl, hr.1.symm, hr.2.symm⟩
      | intConst w v => simp [BasicValueEnum.into_pointer_value] at hr
      | floatConst bb => simp [BasicValueEnum.into_pointer_value] at hr
      | loadVal w s => simp [BasicValueEnum.into_pointer_value] at hr
      | addVal x y => simp [BasicValueEnum.into_pointer_value] at hr
  · intro rv hrv
    rw [hrv] at hr
    simp only [addOperand, Option.some.injEq, Prod.mk.injEq] at hr
    exact ⟨hr.1.symm, hr.2.symm⟩

/-- Witness for `add_lowering_records_sum`: lowering
`Add(dest = InstructionRef(0), lhs = InstructionRef(1), rhs = 2, Int32)`
from a state whose map holds storage handles for identifiers `0` and
`1` loads the left operand, adds, stores the sum into slot `0` and
records identifier `2` as the sum value. -/
theorem add_lowering_records_sum_witness :
    compileInst (InstId.mk 2)
        (Instruction.add ⟨Value.instruction (InstId.mk 0),
          Value.instruction (InstId.mk 1), Value.constantInt 2, MIRType.int32⟩)
        addWitnessCg =
      some { namend := (InstId.mk 2,
               BasicValueEnum.addVal (BasicValueEnum.loadVal 32 1)
                 (BasicValueEnum.intConst 32 2)) :: addWitnessCg.namend,
             nextSlot := 2,
             ops := [LLVMOp.load 32 1,
                     LLVMOp.intAdd (BasicValueEnum.loadVal 32 1)
                       (BasicValueEnum.intConst 32 2),
                     LLVMOp.store 0 (BasicValueEnum.addVal
                       (BasicValueEnum.loadVal 32 1)
                       (BasicValueEnum.intConst 32 2))] } :=
  (add_lowering_records_sum addWitnessCg 2
    ⟨Value.instruction (InstId.mk 0), Value.instruction (InstId.mk 1),
      Value.constantInt 2, MIRType.int32⟩
    (InstId.mk 0) 0 (BasicValueEnum.loadVal 32 1) (BasicValueEnum.intConst 32 2)
    [LLVMOp.load 32 1] [] rfl (by decide) (by decide) (by decide)).1

/-- Every successfully lowered instruction emits at least one backend
op: the trace strictly grows. -/
theorem compileInst_ops_grow (id : InstId) (inst : Instruction)
    (cg cg' : Codegen) (h : compileInst id inst cg = some cg') :
    cg.ops.length < cg'.ops.length := by
  cases inst <;> simp only [compileInst] at h <;> repeat' split at h
  all_goals first
    | exact Option.noConfusion h
    | (simp only [Option.some.injEq] at h
       subst h
       simp [List.length_append])

/-- Lowering a list of instructions emits at least one backend op per
instruction. -/
theorem compileInsts_ops_grow (l : List Instruction) (k : Nat)
    (cg cg' : Codegen) (h : compileInsts k l cg = some cg') :
    cg.ops.length + l.length ≤ cg'.ops.length := by
  induction l generalizing k cg with
  | nil =>
    simp only [compileInsts, Option.some.injEq] at h
    subst h
    simp
  | cons i rest ih =>
    simp only [compileInsts] at h
    cases hc : compileInst (InstId.mk k) i cg with
    | none => rw [hc] at h; cases h
    | some cg1 =>
      rw [hc] at h
      have h1 := compileInst_ops_grow _ _ _ _ hc
      have h2 := ih (k + 1) cg1 h
      simp only [List.length_cons]
      omega

/-- Claim C5, amended: the instruction loop of `compile_block` does not
stop at a lowered `Return`: every remaining instruction of the block's
range is still processed (each emitting at least one further backend
op).  Only when the `Return` is the last instruction of the block's
range — the layout the builder is expected to produce — does nothing
follow it. -/
theorem lowering_continues_after_ret (k : Nat) (r : RetInst)
    (rest : List Instruction) (cg cg' : Codegen)
    (h : compileInsts k (Instruction.ret r :: rest) cg = some cg') :
    cg.ops.length + 1 + rest.length ≤ cg'.ops.length := by
  have hg := compileInsts_ops_grow (Instruction.ret r :: rest) k cg cg' h
  simp only [List.length_cons] at hg
  omega

/-- Witness for `lowering_continues_after_ret`: lowering
`Ret 1; Define b = 2` from the initial state emits three ops — the
`Define` after the `Return` is processed. -/
theorem lowering_continues_after_ret_witness :
    Codegen.initial.ops.length + 1 + 1 ≤ retDefineLowered.ops.length :=
  lowering_continues_after_ret 0 ⟨Value.constantInt 1⟩
    [Instruction.define ⟨MIRType.int32, Value.constantInt 2⟩]
    Codegen.initial retDefineLowered (by decide)

end MIR
